import Mathlib

/-!
Verification of the restart-coordination core of debug-mcp-go-wrapper.

Shallow embedding of internal/proxy/buffer.go and internal/proxy/proxy.go.
Byte slices are modelled as lists of natural numbers; Go runtime panics
(out-of-range slicing, make with negative capacity) are modelled by Option,
with none marking a panic.  The worker process (process.go, not part of the
sources at hand) is modelled from the spec as a handle whose input sink
records the chunks successfully written to it.
-/

namespace DebugMcp

/-- A Go byte slice's contents: an ordered list of bytes. -/
abbrev Bytes := List Nat

/-- MessageBuffer (buffer.go lines 9-13): thread-safe circular buffering for
MCP messages.  The mutex only serialises access and has no sequential
meaning; messages is the slice of stored chunks, maxSize the Go int bound
(Int, since a Go int may be negative). -/
structure MessageBuffer where
  messages : List Bytes
  maxSize : Int
deriving Repr, DecidableEq

/-- NewMessageBuffer (buffer.go lines 16-21): make([][]byte, 0, size) panics
at run time when size is negative, hence none in that case. -/
def NewMessageBuffer (size : Int) : Option MessageBuffer :=
  if size < 0 then none
  else some { messages := [], maxSize := size }

/-- The copy made inside Add (buffer.go lines 33-35):
msgCopy := make([]byte, len(message)); copy(msgCopy, message).
Reads each byte of the source slice at the moment of the call. -/
def goCopyBytes (message : Bytes) : Bytes :=
  (List.range message.length).map (fun i => message.getD i 0)

/-- Add (buffer.go lines 25-38): when len(messages) >= maxSize the oldest
chunk is removed by messages = messages[1:] — which panics (none) when
messages is empty, since the slice expression 1:len requires 1 <= len —
then a deep copy of the chunk is appended. -/
def MessageBuffer.Add (b : MessageBuffer) (message : Bytes) :
    Option MessageBuffer :=
  if (b.messages.length : Int) ≥ b.maxSize then
    match b.messages with
    | [] => none
    | _ :: rest => some { b with messages := rest ++ [goCopyBytes message] }
  else
    some { b with messages := b.messages ++ [goCopyBytes message] }

/-- The write loop inside Replay (buffer.go lines 46-50).  The sink is
modelled by the predicate fail: fail i is true when the i-th Write call
returns an error.  Returns the chunks the sink accepted, in order, and
whether every write succeeded. -/
def replayLoop (fail : Nat → Bool) : List Bytes → Nat → List Bytes × Bool
  | [], _ => ([], true)
  | msg :: rest, i =>
    if fail i then ([], false)
    else
      let r := replayLoop fail rest (i + 1)
      (msg :: r.1, r.2)

/-- Replay (buffer.go lines 42-55): writes every buffered chunk to the sink
in order; on the first write error it returns at once, before the clearing
assignment messages = messages[:0], so the buffer is left unchanged; on full
success the buffer is cleared.  Result: (chunks the sink accepted, success
flag, buffer afterwards). -/
def MessageBuffer.Replay (b : MessageBuffer) (fail : Nat → Bool) :
    List Bytes × Bool × MessageBuffer :=
  let r := replayLoop fail b.messages 0
  if r.2 then (r.1, true, { b with messages := [] })
  else (r.1, false, b)

/-- Len (buffer.go lines 58-62). -/
def MessageBuffer.Len (b : MessageBuffer) : Nat := b.messages.length

/-- Clear (buffer.go lines 65-69): messages = messages[:0]. -/
def MessageBuffer.Clear (b : MessageBuffer) : MessageBuffer :=
  { b with messages := [] }

/-- A finite sequence of Add calls; none as soon as one of them panics. -/
def addAll (b : MessageBuffer) : List Bytes → Option MessageBuffer
  | [] => some b
  | c :: cs =>
    match b.Add c with
    | none => none
    | some b' => addAll b' cs

/-- The last n elements of a list. -/
def lastN (n : Nat) (l : List α) : List α := l.drop (l.length - n)

/-- A heap of Go slice backing arrays, indexed by slice identity: models
that proxyStdin (proxy.go lines 121-122) allocates one 4096-byte read
buffer and reuses it for every read. -/
abbrev Heap := Nat → Bytes

/-- Overwrite the backing array of slice id with fresh data (one read into
the shared buffer, proxy.go line 128). -/
def writeSlice (heap : Heap) (id : Nat) (data : Bytes) : Heap :=
  fun k => if k = id then data else heap k

/-- The call b.Add(message) at proxy.go line 134, where message aliases the
shared read buffer: Add receives the slice and reads its bytes through the
heap exactly once, at call time (the copy loop, buffer.go lines 34-35). -/
def MessageBuffer.addSlice (b : MessageBuffer) (heap : Heap) (id : Nat) :
    Option MessageBuffer :=
  b.Add (heap id)

/-- The buffering iterations of proxyStdin with restart in progress: each
chunk of writes is read into the same slice id (overwriting the previous
contents) and that same slice is then passed to Add. -/
def driveStdinAdds (b : MessageBuffer) (heap : Heap) (id : Nat) :
    List Bytes → Option MessageBuffer
  | [] => some b
  | w :: ws =>
    match b.addSlice (writeSlice heap id w) id with
    | none => none
    | some b' => driveStdinAdds b' (writeSlice heap id w) id ws

/-- PHPProcess.  Modelled from the spec: process.go is not among the
sources at hand; the spec describes a WorkerHandle owning one worker with
an input byte sink.  The handle is modelled by the chunks its input sink
has accepted; spawn, stop and wait outcomes are supplied as parameters
where the proxy consumes them. -/
structure PHPProcess where
  stdinData : List Bytes
deriving Repr, DecidableEq

/-- NewPHPProcess (proxy.go lines 91 and 191): a brand-new handle whose
input sink has received nothing. -/
def NewPHPProcess : PHPProcess := { stdinData := [] }

/-- Proxy (proxy.go lines 14-21): current worker handle, replay buffer and
the restart-in-progress flag.  Configuration strings and the timer period
play no part in the embedded control logic. -/
structure Proxy where
  process : PHPProcess
  buffer : MessageBuffer
  restarting : Bool
deriving Repr, DecidableEq

/-- Observable steps of one restartPHP call, in program order. -/
inductive RestartEvent where
  | setFlag (value : Bool)
  | stopOld (stopErr : Bool)
  | allocHandle
  | spawn (ok : Bool)
  | replayed (chunks : List Bytes)
deriving Repr, DecidableEq

/-- restartPHP (proxy.go lines 79-108).  Parameters: stopErr — Stop
returned an error (logged only, line 87); spawnErr — Start of the new
worker failed; fail — write-failure pattern of the new worker's stdin
during Replay.  Returns the proxy afterwards, true on success (nil error),
and the event trace.  The deferred assignment restarting = false (line 82)
runs on every return path. -/
def restartPHP (p : Proxy) (stopErr spawnErr : Bool) (fail : Nat → Bool) :
    Proxy × Bool × List RestartEvent :=
  let p2 : Proxy := { p with restarting := true, process := NewPHPProcess }
  if spawnErr then
    ({ p2 with restarting := false }, false,
     [.setFlag true, .stopOld stopErr, .allocHandle, .spawn false,
      .setFlag false])
  else
    if p2.buffer.Len > 0 then
      let r := p2.buffer.Replay fail
      ({ p2 with
          buffer := r.2.2,
          process := { stdinData := p2.process.stdinData ++ r.1 },
          restarting := false },
       r.2.1,
       [.setFlag true, .stopOld stopErr, .allocHandle, .spawn true,
        .replayed r.1, .setFlag false])
    else
      ({ p2 with restarting := false }, true,
       [.setFlag true, .stopOld stopErr, .allocHandle, .spawn true,
        .setFlag false])

/-- The value of the restart-in-progress flag after a list of events,
starting from init. -/
def flagAfter (init : Bool) (evs : List RestartEvent) : Bool :=
  evs.foldl
    (fun acc e =>
      match e with
      | .setFlag v => v
      | _ => acc)
    init

/-- One iteration of the proxyStdin read loop for a chunk that was read
(proxy.go lines 129-143): with restart in progress the chunk goes to the
buffer (none models the Add panic on a non-positive capacity); otherwise it
is written to the current worker's stdin — writeErr tells whether that
Write fails, in which case the error is logged and the loop returns.  The
Bool is true when the loop continues. -/
def proxyStdinStep (p : Proxy) (chunk : Bytes) (writeErr : Bool) :
    Option (Proxy × Bool) :=
  if p.restarting then
    match p.buffer.Add chunk with
    | none => none
    | some b' => some ({ p with buffer := b' }, true)
  else
    if writeErr then some (p, false)
    else
      some ({ p with
        process := { stdinData := p.process.stdinData ++ [chunk] } }, true)

/-- What one monitor iteration did. -/
structure MonitorOutcome where
  state : Proxy
  spawnAttempts : Nat
  loggedUnexpectedExit : Bool
  backedOff : Bool
deriving Repr, DecidableEq

/-- One iteration of monitorProcess after Wait returns (proxy.go lines
186-199).  exitStatus is the worker's exit status; modelled from the spec
for the missing process.go: wait() yields the ExitStatus, and following the
Go convention for waiting on a child, the error proxy.go compares with nil
at line 187 is nil exactly when the status is 0.  When the error is non-nil
and restarting is false the exit is logged, a brand-new handle is
allocated, and exactly one immediate spawn is attempted (no stop step, no
timer involved); a failed spawn only causes a backoff sleep.  Otherwise
nothing happens. -/
def monitorStep (p : Proxy) (exitStatus : Nat) (spawnErr : Bool) :
    MonitorOutcome :=
  if exitStatus ≠ 0 ∧ p.restarting = false then
    { state := { p with process := NewPHPProcess },
      spawnAttempts := 1,
      loggedUnexpectedExit := true,
      backedOff := spawnErr }
  else
    { state := p,
      spawnAttempts := 0,
      loggedUnexpectedExit := false,
      backedOff := false }

/-- One iteration of proxyStdout (proxy.go lines 157-177) for a chunk
read from the current worker's output: on success the chunk is written
verbatim to the external output; a write error is logged and ends the
activity.  The loop touches neither the buffer nor the flag nor the
handle, so it carries no proxy state.  Result: (bytes forwarded to the
external output, whether the activity continues). -/
def proxyStdoutStep (chunk : Bytes) (writeErr : Bool) :
    List Bytes × Bool :=
  if writeErr then ([], false) else ([chunk], true)

/-- Events observed by the select of Run's main loop (proxy.go lines
53-64): a restart-timer tick, carrying the outcomes of the restart cycle it
triggers, or the cancellation of the context. -/
inductive MainEvent where
  | tick (stopErr spawnErr : Bool) (fail : Nat → Bool)
  | cancel

/-- What Run returned, or that it is still blocked in its loop. -/
inductive RunResult where
  | spawnFailed
  | cancelled (final : Proxy)
  | stillRunning (current : Proxy)
deriving Repr, DecidableEq

/-- Observable actions of Run's main loop: a restart cycle ran (its error,
if any, only logged — line 57), or stopPHP was called on the then-current
worker handle (line 61). -/
inductive RunEvent where
  | restartAttempted (ok : Bool)
  | stoppedWorker (worker : PHPProcess)
deriving Repr, DecidableEq

/-- The main select loop of Run (proxy.go lines 52-64): a tick triggers
restartPHP, whose error is only logged (lines 56-58, recorded by the
restartAttempted event and never escalated); ctx.Done stops the current
worker — the stoppedWorker event records the handle the stopPHP call at
line 61 acts on — and returns nil (lines 60-63). -/
def runLoop (p : Proxy) : List MainEvent → RunResult × List RunEvent
  | [] => (.stillRunning p, [])
  | .tick se sp fail :: rest =>
    let r := restartPHP p se sp fail
    let next := runLoop r.1 rest
    (next.1, .restartAttempted r.2.1 :: next.2)
  | .cancel :: _ => (.cancelled p, [.stoppedWorker p.process])

/-- Run (proxy.go lines 35-65): the first startPHP failing is returned as
an error before the monitor and the stdio forwarders are started (the
goroutines at lines 46 and 49); otherwise the activities start and the main
loop runs.  Result: the loop's outcome, its event trace, and whether the
activities were started. -/
def Run (firstSpawnErr : Bool) (p : Proxy) (sched : List MainEvent) :
    RunResult × List RunEvent × Bool :=
  if firstSpawnErr then (.spawnFailed, [], false)
  else ((runLoop p sched).1, (runLoop p sched).2, true)

lemma goCopyBytes_eq (m : Bytes) : goCopyBytes m = m := by
  apply List.ext_getElem
  · simp [goCopyBytes]
  · intro i h1 h2
    simp only [goCopyBytes, List.getElem_map, List.getElem_range]
    rw [List.getD_eq_getElem]

lemma lastN_length_le (n : Nat) (l : List α) : (lastN n l).length ≤ n := by
  simp only [lastN, List.length_drop]
  omega

lemma lastN_of_length_le (n : Nat) (l : List α) (h : l.length ≤ n) :
    lastN n l = l := by
  simp only [lastN]
  rw [Nat.sub_eq_zero_of_le h, List.drop_zero]

lemma lastN_length_of_le (n : Nat) (l : List α) (h : n ≤ l.length) :
    (lastN n l).length = n := by
  simp only [lastN, List.length_drop]
  omega

lemma lastN_eviction_step (C : Nat) (m c : α) (rest cs : List α)
    (h : rest.length + 1 = C) :
    lastN C ((rest ++ [c]) ++ cs) = lastN C ((m :: rest) ++ (c :: cs)) := by
  have h1 : ((rest ++ [c]) ++ cs).length - C = cs.length := by
    simp only [List.length_append, List.length_cons, List.length_nil]
    omega
  have h2 : ((m :: rest) ++ (c :: cs)).length - C = cs.length + 1 := by
    simp only [List.length_append, List.length_cons]
    omega
  simp only [lastN, h1, h2]
  rw [List.cons_append, List.drop_succ_cons, List.append_assoc,
    List.singleton_append]

/-- An Add on a buffer strictly below capacity succeeds and appends. -/
lemma Add_below_capacity (b : MessageBuffer) (c : Bytes)
    (h : (b.messages.length : Int) < b.maxSize) :
    b.Add c = some { b with messages := b.messages ++ [c] } := by
  simp only [MessageBuffer.Add, not_le.mpr h, ge_iff_le, if_false,
    goCopyBytes_eq]

/-- An Add on a nonempty buffer at or above capacity evicts the oldest
chunk, then appends. -/
lemma Add_at_capacity (b : MessageBuffer) (c : Bytes) (m : Bytes)
    (rest : List Bytes) (hm : b.messages = m :: rest)
    (h : (b.messages.length : Int) ≥ b.maxSize) :
    b.Add c = some { b with messages := rest ++ [c] } := by
  simp only [MessageBuffer.Add, hm] at h ⊢
  simp only [ge_iff_le, if_pos h, goCopyBytes_eq]

/-- Main characterisation of a run of Add calls: starting at or below a
positive capacity C, no call panics, capacity is preserved, and the final
contents are the last C chunks of old-contents-then-new-chunks. -/
lemma addAll_spec (C : Nat) (hC : 1 ≤ C) :
    ∀ (cs : List Bytes) (b : MessageBuffer), b.maxSize = (C : Int) →
      b.messages.length ≤ C →
      addAll b cs =
        some { messages := lastN C (b.messages ++ cs), maxSize := (C : Int) }
  | [], b, hmax, hlen => by
    simp only [addAll, List.append_nil, lastN_of_length_le C b.messages hlen]
    rw [← hmax]
  | c :: cs, b, hmax, hlen => by
    rcases Nat.lt_or_ge b.messages.length C with hlt | hge
    · have hadd := Add_below_capacity b c (by rw [hmax]; exact_mod_cast hlt)
      simp only [addAll, hadd]
      have hrec := addAll_spec C hC cs { b with messages := b.messages ++ [c] }
        (by simpa using hmax)
        (by simp only [List.length_append, List.length_cons,
              List.length_nil]; omega)
      rw [hrec, List.append_assoc, List.singleton_append]
    · have heq : b.messages.length = C := Nat.le_antisymm hlen hge
      rcases hm : b.messages with _ | ⟨m, rest⟩
      · rw [hm] at heq; simp at heq; omega
      · have hrest : rest.length + 1 = C := by
          rw [hm] at heq; simpa using heq
        have hadd := Add_at_capacity b c m rest hm
          (by rw [hmax, heq])
        simp only [addAll, hadd]
        have hrec := addAll_spec C hC cs { b with messages := rest ++ [c] }
          (by simpa using hmax)
          (by simp only [List.length_append, List.length_cons,
                List.length_nil]; omega)
        rw [hrec]
        have hstep := lastN_eviction_step C m c rest cs hrest
        simp only [List.cons_append] at hstep
        simp only [hstep, List.cons_append]

/-- When every write succeeds, the replay loop delivers every chunk. -/
lemma replayLoop_ok (fail : Nat → Bool) (hok : ∀ i, fail i = false) :
    ∀ (msgs : List Bytes) (i : Nat), replayLoop fail msgs i = (msgs, true)
  | [], _ => rfl
  | msg :: rest, i => by
    simp only [replayLoop, hok i, Bool.false_eq_true, if_false,
      replayLoop_ok fail hok rest (i + 1)]

/-- When the first failing write is the one at offset j, the replay loop
delivers exactly the first j chunks and reports the error. -/
lemma replayLoop_first_fail (fail : Nat → Bool) :
    ∀ (msgs : List Bytes) (i j : Nat), j < msgs.length →
      (∀ k, k < j → fail (i + k) = false) → fail (i + j) = true →
      replayLoop fail msgs i = (msgs.take j, false)
  | [], i, j, hj, _, _ => by simp at hj
  | msg :: rest, i, j, hj, hbefore, hfail => by
    cases j with
    | zero =>
      simp only [Nat.add_zero] at hfail
      simp [replayLoop, hfail]
    | succ j =>
      have h0 : fail i = false := by simpa using hbefore 0 (Nat.succ_pos j)
      have hrec := replayLoop_first_fail fail rest (i + 1) j
        (by simpa using hj)
        (fun k hk => by
          have := hbefore (k + 1) (by omega)
          simpa [Nat.add_assoc, Nat.add_comm 1 k] using this)
        (by
          have : i + 1 + j = i + (j + 1) := by omega
          rw [this]; exact hfail)
      simp only [replayLoop, h0, Bool.false_eq_true, if_false, hrec,
        List.take_succ_cons]

@[simp] lemma flagAfter_nil (i : Bool) : flagAfter i [] = i := rfl

@[simp] lemma flagAfter_setFlag (i v : Bool) (evs : List RestartEvent) :
    flagAfter i (.setFlag v :: evs) = flagAfter v evs := rfl

@[simp] lemma flagAfter_stopOld (i e : Bool) (evs : List RestartEvent) :
    flagAfter i (.stopOld e :: evs) = flagAfter i evs := rfl

@[simp] lemma flagAfter_allocHandle (i : Bool) (evs : List RestartEvent) :
    flagAfter i (.allocHandle :: evs) = flagAfter i evs := rfl

@[simp] lemma flagAfter_spawn (i o : Bool) (evs : List RestartEvent) :
    flagAfter i (.spawn o :: evs) = flagAfter i evs := rfl

@[simp] lemma flagAfter_replayed (i : Bool) (cs : List Bytes)
    (evs : List RestartEvent) :
    flagAfter i (.replayed cs :: evs) = flagAfter i evs := rfl

/-- C1 counterexample: the claim quantifies over every capacity, but at
capacity 0 the very first Add panics (messages[1:] on an empty slice)
instead of leaving a buffer that holds the last 0 chunks. -/
theorem buffer_last_C_counterexample :
    NewMessageBuffer 0 = some ⟨[], 0⟩ ∧
    addAll ⟨[], 0⟩ [[97]] = none := by
  decide

/-- C1 (amended: for every capacity C of at least 1): after a sequence of
Add calls longer than C starting from a fresh buffer, the buffer holds
exactly the last C chunks in arrival order; after every intermediate
prefix the length never exceeds C; and an insertion at capacity evicts
exactly the single oldest chunk before appending the new one, whole chunks
only. -/
theorem buffer_retains_last_C (C : Nat) (hC : 1 ≤ C) (cs : List Bytes)
    (b0 : MessageBuffer) (hb0 : NewMessageBuffer (C : Int) = some b0) :
    (∀ k, ∃ bk, addAll b0 (cs.take k) = some bk ∧ bk.Len ≤ C ∧
        bk.messages = lastN C (cs.take k)) ∧
    (C < cs.length →
      ∃ bf, addAll b0 cs = some bf ∧
        bf.messages = cs.drop (cs.length - C) ∧ bf.Len = C) ∧
    (∀ (b : MessageBuffer) (m mhd : Bytes) (rest : List Bytes),
        b.maxSize = (C : Int) → b.messages = mhd :: rest →
        rest.length + 1 = C →
        b.Add m = some { b with messages := rest ++ [m] }) := by
  have hb0eq : b0 = ⟨[], (C : Int)⟩ := by
    simp only [NewMessageBuffer, if_neg (by omega : ¬((C : Int) < 0))] at hb0
    exact (Option.some.inj hb0).symm
  subst hb0eq
  refine ⟨?_, ?_, ?_⟩
  · intro k
    have h := addAll_spec C hC (cs.take k) ⟨[], (C : Int)⟩ rfl
      (by simp)
    refine ⟨_, h, ?_, by simp⟩
    simpa [MessageBuffer.Len] using lastN_length_le C (cs.take k)
  · intro hlen
    have h := addAll_spec C hC cs ⟨[], (C : Int)⟩ rfl (by simp)
    refine ⟨_, h, by simp [lastN], ?_⟩
    simpa [MessageBuffer.Len] using
      lastN_length_of_le C cs (Nat.le_of_lt hlen)
  · intro b m mhd rest hmax hm hrest
    apply Add_at_capacity b m mhd rest hm
    rw [hmax, hm]
    simp only [List.length_cons, ge_iff_le]
    omega

/-- Witness for C1: capacity 3, adds a, b, c, d; the buffer afterwards is
b, c, d with length 3. -/
theorem buffer_retains_last_C_witness :
    ∃ bf, addAll ⟨[], 3⟩ [[97], [98], [99], [100]] = some bf ∧
      bf.messages = [[98], [99], [100]] ∧ bf.Len = 3 := by
  obtain ⟨-, h2, -⟩ := buffer_retains_last_C 3 (by norm_num)
    [[97], [98], [99], [100]] ⟨[], 3⟩ (by decide)
  obtain ⟨bf, h, hm, hl⟩ := h2 (by norm_num)
  exact ⟨bf, h, by rw [hm]; rfl, hl⟩

/-- C2: when every write to the sink succeeds, Replay delivers every
buffered chunk in arrival order, clears the buffer so that Len returns 0
immediately afterwards, and a second Replay delivers nothing — no chunk is
replayed twice. -/
theorem replay_success_clears (b : MessageBuffer) (fail : Nat → Bool)
    (hok : ∀ i, fail i = false) :
    b.Replay fail = (b.messages, true, { b with messages := [] }) ∧
    (b.Replay fail).2.2.Len = 0 ∧
    (∀ fail2, ((b.Replay fail).2.2).Replay fail2 =
        ([], true, { b with messages := [] })) := by
  have h1 : b.Replay fail = (b.messages, true, { b with messages := [] }) := by
    simp [MessageBuffer.Replay, replayLoop_ok fail hok]
  refine ⟨h1, ?_, ?_⟩
  · rw [h1]; rfl
  · intro fail2
    rw [h1]
    simp [MessageBuffer.Replay, replayLoop]

/-- Witness for C2: the spec scenario's buffer b, c, d; a fully successful
replay emits b, c, d in order and leaves the buffer empty. -/
theorem replay_success_clears_witness :
    (⟨[[98], [99], [100]], 3⟩ : MessageBuffer).Replay (fun _ => false) =
      ([[98], [99], [100]], true, ⟨[], 3⟩) :=
  (replay_success_clears ⟨[[98], [99], [100]], 3⟩ (fun _ => false)
    (fun _ => rfl)).1

/-- C9: when the write at offset j is the first to fail, Replay delivers
exactly the chunks before it, returns the error at once, and leaves the
buffer completely unchanged — the already-delivered chunks included — so a
later fully successful Replay re-sends every chunk. -/
theorem replay_failure_keeps_buffer (b : MessageBuffer) (fail : Nat → Bool)
    (j : Nat) (hj : j < b.Len)
    (hbefore : ∀ k, k < j → fail k = false) (hfail : fail j = true) :
    b.Replay fail = (b.messages.take j, false, b) ∧
    (∀ fail2, (∀ i, fail2 i = false) →
      ((b.Replay fail).2.2).Replay fail2 =
        (b.messages, true, { b with messages := [] })) := by
  have hloop := replayLoop_first_fail fail b.messages 0 j hj
    (fun k hk => by simpa using hbefore k hk) (by simpa using hfail)
  have h1 : b.Replay fail = (b.messages.take j, false, b) := by
    simp [MessageBuffer.Replay, hloop]
  refine ⟨h1, ?_⟩
  intro fail2 hok2
  rw [h1]
  simp [MessageBuffer.Replay, replayLoop_ok fail2 hok2]

/-- Witness for C9: two chunks, the second write fails; the delivered
output is the first chunk only, the buffer keeps both chunks, and a
subsequent successful replay re-sends both. -/
theorem replay_failure_keeps_buffer_witness :
    (⟨[[1], [2]], 5⟩ : MessageBuffer).Replay (fun i => decide (1 ≤ i)) =
      ([[1]], false, ⟨[[1], [2]], 5⟩) ∧
    (⟨[[1], [2]], 5⟩ : MessageBuffer).Replay (fun _ => false) =
      ([[1], [2]], true, ⟨[], 5⟩) := by
  have h := replay_failure_keeps_buffer ⟨[[1], [2]], 5⟩
    (fun i => decide (1 ≤ i)) 1 (by decide)
    (fun k hk => by
      have hk0 : k = 0 := by omega
      subst hk0; rfl)
    (by decide)
  refine ⟨by simpa using h.1, ?_⟩
  have h2 := h.2 (fun _ => false) (fun _ => rfl)
  rw [h.1] at h2
  simpa using h2

/-- C8: the buffer stores a deep copy of each added chunk.  Driving the
adds through the proxyStdin read loop — which reuses one shared slice,
overwriting it before every Add — yields exactly the same buffer as adding
the successive chunk values themselves: the buffered (and hence later
replayed) bytes are those the slice held at the moment of each Add call,
unaffected by any later reuse of the caller's buffer. -/
theorem add_deep_copy (b : MessageBuffer) (heap : Heap) (id : Nat)
    (ws : List Bytes) :
    driveStdinAdds b heap id ws = addAll b ws := by
  induction ws generalizing b heap with
  | nil => rfl
  | cons w ws ih =>
    have hread : writeSlice heap id w id = w := by simp [writeSlice]
    simp only [driveStdinAdds, addAll, MessageBuffer.addSlice, hread]
    cases hadd : b.Add w with
    | none => rfl
    | some b' => exact ih b' (writeSlice heap id w)

/-- C3: per-chunk routing of the input-forwarding loop.  With the
restart-in-progress flag true the chunk is appended to the buffer and no
worker input sink is touched; with the flag false and a succeeding write
the chunk goes directly to the current worker's input sink.  In
particular, with the flag true, two inputs x and y both land in the buffer
in order, the old worker's sink is untouched, and a subsequent restart
with a successful spawn replays x then y, in that order, into the new
worker's input sink. -/
theorem stdin_routing (p : Proxy) (c : Bytes) (w : Bool) :
    (p.restarting = true → ∀ b', p.buffer.Add c = some b' →
      proxyStdinStep p c w = some ({ p with buffer := b' }, true)) ∧
    (p.restarting = false → w = false →
      proxyStdinStep p c w =
        some ({ p with
          process := { stdinData := p.process.stdinData ++ [c] } }, true)) ∧
    (∀ x y : Bytes, p.restarting = true → p.buffer.messages = [] →
      (2 : Int) ≤ p.buffer.maxSize →
      ∃ p1 p2, proxyStdinStep p x w = some (p1, true) ∧
        proxyStdinStep p1 y w = some (p2, true) ∧
        p2.buffer.messages = [x, y] ∧ p2.process = p.process ∧
        p2.restarting = true ∧
        ∀ se, (restartPHP p2 se false (fun _ => false)).1.process.stdinData
          = [x, y]) := by
  refine ⟨?_, ?_, ?_⟩
  · intro hr b' hadd
    simp [proxyStdinStep, hr, hadd]
  · intro hr hw
    simp [proxyStdinStep, hr, hw]
  · intro x y hr hempty hcap
    have hadd1 : p.buffer.Add x =
        some { p.buffer with messages := p.buffer.messages ++ [x] } :=
      Add_below_capacity p.buffer x (by rw [hempty]; simp; omega)
    have hadd2 : ({ p.buffer with messages := p.buffer.messages ++ [x] }
        : MessageBuffer).Add y =
        some { p.buffer with messages := (p.buffer.messages ++ [x]) ++ [y] } :=
      Add_below_capacity _ y (by rw [hempty]; simp; omega)
    refine ⟨{ p with buffer :=
        { p.buffer with messages := p.buffer.messages ++ [x] } },
      { p with buffer :=
        { p.buffer with messages := (p.buffer.messages ++ [x]) ++ [y] } },
      ?_, ?_, ?_, rfl, hr, ?_⟩
    · simp [proxyStdinStep, hr, hadd1]
    · simp [proxyStdinStep, hr, hadd2]
    · simp [hempty]
    · intro se
      have hloopok := replayLoop_ok (fun _ => false) (fun _ => rfl)
      simp [restartPHP, MessageBuffer.Len, MessageBuffer.Replay, hempty,
        NewPHPProcess, hloopok]

/-- Witness for C3: flag set, inputs x and y arrive while one old chunk
sits in the old worker's sink; both land in the buffer, the old sink is
untouched, and a restart replays x then y into the new worker's sink. -/
theorem stdin_routing_witness :
    ∃ p1 p2,
      proxyStdinStep ⟨⟨[[7]]⟩, ⟨[], 3⟩, true⟩ [120] false =
        some (p1, true) ∧
      proxyStdinStep p1 [121] false = some (p2, true) ∧
      p2.buffer.messages = [[120], [121]] ∧
      p2.process = PHPProcess.mk [[7]] ∧
      p2.restarting = true ∧
      ∀ se, (restartPHP p2 se false (fun _ => false)).1.process.stdinData
        = [[120], [121]] :=
  (stdin_routing ⟨⟨[[7]]⟩, ⟨[], 3⟩, true⟩ [0] false).2.2 [120] [121]
    rfl rfl (by norm_num)

/-- C4: across every execution path of restartPHP — success, spawn error,
replay error — the restart-in-progress flag is set to true as the first
action, before the old worker's stop; after every later intermediate event
except the final return the flag is still true; the last action sets the
flag to false, so the returned state never has it stuck true. -/
theorem restart_flag_discipline (p : Proxy) (se sp : Bool)
    (fail : Nat → Bool) :
    (restartPHP p se sp fail).1.restarting = false ∧
    ((restartPHP p se sp fail).2.2).head? =
      some (RestartEvent.setFlag true) ∧
    ((restartPHP p se sp fail).2.2).getLast? =
      some (RestartEvent.setFlag false) ∧
    ∀ k, 0 < k → k < ((restartPHP p se sp fail).2.2).length →
      flagAfter p.restarting (((restartPHP p se sp fail).2.2).take k)
        = true := by
  refine ⟨?_, ?_, ?_, ?_⟩
  · simp only [restartPHP]
    split
    · rfl
    · split <;> rfl
  · simp only [restartPHP]
    split
    · rfl
    · split <;> rfl
  · simp only [restartPHP]
    split
    · rfl
    · split <;> rfl
  · simp only [restartPHP]
    split
    · intro k hk0 hk
      simp only [List.length_cons, List.length_nil] at hk
      interval_cases k <;> rfl
    · split
      · intro k hk0 hk
        simp only [List.length_cons, List.length_nil] at hk
        interval_cases k <;> rfl
      · intro k hk0 hk
        simp only [List.length_cons, List.length_nil] at hk
        interval_cases k <;> rfl

/-- Witness for C4: a concrete restart cycle ends with the flag false. -/
theorem restart_flag_discipline_witness :
    (restartPHP ⟨⟨[]⟩, ⟨[[5]], 3⟩, false⟩ false false
      (fun _ => false)).1.restarting = false :=
  (restart_flag_discipline ⟨⟨[]⟩, ⟨[[5]], 3⟩, false⟩ false false
    (fun _ => false)).1

/-- C5 counterexample: the worker exits cleanly (status 0, so the error
Wait returns and proxy.go line 187 compares with nil is nil) while the
restart flag is false — the monitor makes no respawn attempt, refuting
"exactly one immediate respawn attempt regardless of the worker's exit
status". -/
theorem monitor_clean_exit_counterexample :
    (monitorStep ⟨⟨[]⟩, ⟨[], 3⟩, false⟩ 0 false).spawnAttempts = 0 ∧
    ¬ (monitorStep ⟨⟨[]⟩, ⟨[], 3⟩, false⟩ 0 false).spawnAttempts = 1 := by
  decide

/-- C5 (amended): the monitor respawns exactly when Wait reports a non-nil
error — a nonzero exit status — while the restart flag is false; it then
logs the unexpected exit, allocates a brand-new handle and makes exactly
one immediate spawn attempt, with no stop step and independently of the
spawn attempt's own success; a clean exit, or any exit with the flag true,
triggers no attempt. -/
theorem monitor_respawn_amended (p : Proxy) (status : Nat) (sp : Bool) :
    ((monitorStep p status sp).spawnAttempts = 1 ↔
      status ≠ 0 ∧ p.restarting = false) ∧
    (status ≠ 0 → p.restarting = false →
      (monitorStep p status sp).loggedUnexpectedExit = true ∧
      (monitorStep p status sp).state.process = NewPHPProcess ∧
      (monitorStep p status sp).spawnAttempts = 1) ∧
    ((monitorStep p status sp).spawnAttempts = 0 ∨
      (monitorStep p status sp).spawnAttempts = 1) := by
  by_cases h : status ≠ 0 ∧ p.restarting = false
  · simp [monitorStep, h]
  · have h1 : monitorStep p status sp = ⟨p, 0, false, false⟩ := by
      simp [monitorStep, h]
    rw [h1]
    refine ⟨⟨fun h01 => absurd h01 (by simp), fun hh => absurd hh h⟩,
      ?_, Or.inl rfl⟩
    intro hs hr
    exact absurd ⟨hs, hr⟩ h

/-- Witness for C5 (amended): a crash (status 1) with the flag false leads
to one logged respawn attempt on a fresh handle. -/
theorem monitor_respawn_amended_witness :
    (monitorStep ⟨⟨[]⟩, ⟨[], 3⟩, false⟩ 1 false).loggedUnexpectedExit
      = true ∧
    (monitorStep ⟨⟨[]⟩, ⟨[], 3⟩, false⟩ 1 false).state.process
      = NewPHPProcess ∧
    (monitorStep ⟨⟨[]⟩, ⟨[], 3⟩, false⟩ 1 false).spawnAttempts = 1 :=
  (monitor_respawn_amended ⟨⟨[]⟩, ⟨[], 3⟩, false⟩ 1 false).2.1
    (by decide) rfl

/-- C6: every restart cycle performs, in order, stop-old (its error only
logged: the cycle's result and final state do not depend on it), discard
of the old handle for a brand-new one, spawn, and — only on spawn success
— replay of the buffered chunks into the new worker's input sink; a spawn
failure ends the cycle with an error and no replay, and a replay error is
propagated to the caller. -/
theorem restart_cycle_spec (p : Proxy) (se sp : Bool) (fail : Nat → Bool) :
    ((restartPHP p se sp fail).2.2).take 4 =
      [RestartEvent.setFlag true, RestartEvent.stopOld se,
       RestartEvent.allocHandle, RestartEvent.spawn (!sp)] ∧
    (sp = true →
      (restartPHP p se sp fail).2.1 = false ∧
      (restartPHP p se sp fail).1.process = NewPHPProcess ∧
      (restartPHP p se sp fail).1.buffer = p.buffer ∧
      ∀ cs, RestartEvent.replayed cs ∉ (restartPHP p se sp fail).2.2) ∧
    (sp = false →
      (restartPHP p se sp fail).1.process.stdinData =
        (p.buffer.Replay fail).1 ∧
      (restartPHP p se sp fail).2.1 = (p.buffer.Replay fail).2.1 ∧
      (restartPHP p se sp fail).1.buffer = (p.buffer.Replay fail).2.2) ∧
    ((restartPHP p true sp fail).1 = (restartPHP p false sp fail).1 ∧
     (restartPHP p true sp fail).2.1 = (restartPHP p false sp fail).2.1) := by
  obtain ⟨pr, ⟨ms, mx⟩, rst⟩ := p
  cases sp
  · cases ms with
    | nil =>
      refine ⟨?_, by simp, ?_, ?_⟩
      · simp [restartPHP, MessageBuffer.Len]
      · intro _
        refine ⟨?_, ?_, ?_⟩ <;>
          simp [restartPHP, MessageBuffer.Len, MessageBuffer.Replay,
            replayLoop, NewPHPProcess]
      · constructor <;> simp [restartPHP, MessageBuffer.Len]
    | cons m rest =>
      refine ⟨?_, by simp, ?_, ?_⟩
      · simp [restartPHP, MessageBuffer.Len]
      · intro _
        refine ⟨?_, ?_, ?_⟩ <;>
          simp [restartPHP, MessageBuffer.Len, NewPHPProcess]
      · constructor <;> simp [restartPHP, MessageBuffer.Len]
  · refine ⟨by simp [restartPHP], ?_, by simp, ?_⟩
    · intro _
      refine ⟨by simp [restartPHP], by simp [restartPHP],
        by simp [restartPHP], ?_⟩
      intro cs
      simp [restartPHP]
    · constructor <;> simp [restartPHP]

/-- Witness for C6: a concrete cycle with one buffered chunk and a
successful spawn replays that chunk into the new worker's sink. -/
theorem restart_cycle_spec_witness :
    ((restartPHP ⟨⟨[[9]]⟩, ⟨[[1]], 3⟩, false⟩ true false
        (fun _ => false)).2.2).take 4 =
      [RestartEvent.setFlag true, RestartEvent.stopOld true,
       RestartEvent.allocHandle, RestartEvent.spawn true] :=
  (restart_cycle_spec ⟨⟨[[9]]⟩, ⟨[[1]], 3⟩, false⟩ true false
    (fun _ => false)).1

/-- runLoop never produces the first-spawn failure result. -/
lemma runLoop_ne_spawnFailed :
    ∀ (sched : List MainEvent) (p : Proxy),
      (runLoop p sched).1 ≠ RunResult.spawnFailed
  | [], _ => by simp [runLoop]
  | .tick se sp f :: rest, p => by
    simpa [runLoop] using runLoop_ne_spawnFailed rest (restartPHP p se sp f).1
  | .cancel :: _, _ => by simp [runLoop]

/-- If the cancellation signal occurs in the schedule, the loop stops the
worker that is current at that moment — the final event is the stop of the
returned state's handle — and returns the cancelled result. -/
lemma runLoop_cancelled :
    ∀ (sched : List MainEvent) (p : Proxy), MainEvent.cancel ∈ sched →
      ∃ pf, (runLoop p sched).1 = RunResult.cancelled pf ∧
        ((runLoop p sched).2).getLast? =
          some (RunEvent.stoppedWorker pf.process)
  | [], _, h => absurd h (List.not_mem_nil _)
  | .tick se sp f :: rest, p, h => by
    have hrest : MainEvent.cancel ∈ rest := by
      rcases List.mem_cons.mp h with h1 | h2
      · exact absurd h1 (by simp)
      · exact h2
    obtain ⟨pf, h1, h2⟩ :=
      runLoop_cancelled rest (restartPHP p se sp f).1 hrest
    refine ⟨pf, by simpa [runLoop] using h1, ?_⟩
    simp only [runLoop]
    cases htl : (runLoop (restartPHP p se sp f).1 rest).2 with
    | nil => rw [htl] at h2; simp at h2
    | cons a t =>
      rw [htl] at h2
      simpa [List.getLast?_cons_cons] using h2
  | .cancel :: _, p, _ => ⟨p, rfl, rfl⟩

/-- C7: Run returns an error exactly when the first spawn fails, and then
no forwarding or monitoring activity is started and its loop performs no
action at all; otherwise the activities start and failures are contained:
restart-cycle and stop failures on ticks are only logged (the result is
never an error, whatever the ticks' outcomes), a failed write in the
input-forwarding activity ends that activity with the proxy state
untouched and no error value to escalate, and likewise a failed write in
the output-forwarding activity; once the cancellation signal fires, Run
stops the then-current worker — the final recorded action is the stop of
the returned state's handle — and returns without error. -/
theorem run_error_iff_first_spawn (e : Bool) (p : Proxy)
    (sched : List MainEvent) :
    ((Run e p sched).1 = RunResult.spawnFailed ↔ e = true) ∧
    ((Run e p sched).2.2 = false ↔ e = true) ∧
    (e = true → (Run e p sched).2.1 = []) ∧
    (e = false → MainEvent.cancel ∈ sched →
      ∃ pf, (Run e p sched).1 = RunResult.cancelled pf ∧
        ((Run e p sched).2.1).getLast? =
          some (RunEvent.stoppedWorker pf.process)) ∧
    (∀ (q : Proxy) (c : Bytes), q.restarting = false →
      proxyStdinStep q c true = some (q, false)) ∧
    (∀ c : Bytes, proxyStdoutStep c true = ([], false)) := by
  cases e
  · refine ⟨by simp [Run, runLoop_ne_spawnFailed sched p], by simp [Run],
      by simp, ?_, ?_, ?_⟩
    · intro _ hmem
      simpa [Run] using runLoop_cancelled sched p hmem
    · intro q c hq
      simp [proxyStdinStep, hq]
    · intro c
      rfl
  · refine ⟨by simp [Run], by simp [Run], by simp [Run], by simp, ?_, ?_⟩
    · intro q c hq
      simp [proxyStdinStep, hq]
    · intro c
      rfl

/-- Witness for C7: with a successful first spawn and a schedule of one
failing restart tick followed by cancellation, Run returns the cancelled
result rather than an error, and its last action is stopping the current
worker's handle. -/
theorem run_error_iff_first_spawn_witness :
    ∃ pf, (Run false ⟨⟨[]⟩, ⟨[], 3⟩, false⟩
        [MainEvent.tick false true (fun _ => false), MainEvent.cancel]).1 =
          RunResult.cancelled pf ∧
      ((Run false ⟨⟨[]⟩, ⟨[], 3⟩, false⟩
        [MainEvent.tick false true (fun _ => false),
         MainEvent.cancel]).2.1).getLast? =
        some (RunEvent.stoppedWorker pf.process) :=
  (run_error_iff_first_spawn false ⟨⟨[]⟩, ⟨[], 3⟩, false⟩
    [MainEvent.tick false true (fun _ => false), MainEvent.cancel]).2.2.2.1
    rfl (by simp)

/-- C10 counterexample: with a negative maximum size the panic happens
already inside NewMessageBuffer — make with a negative capacity — so no
buffer is ever created on which the first Add could be the panicking
call. -/
theorem negative_size_creation_counterexample :
    NewMessageBuffer (-1) = none := by
  decide

/-- C10 (amended): with maximum size 0 creation succeeds and the very
first Add panics — the eviction branch runs on the empty chunk list and
slices past its end; with a negative maximum size NewMessageBuffer itself
panics in make; either way the no-overflow behaviour is only guaranteed
for capacities of at least 1. -/
theorem nonpositive_capacity_unusable (m : Bytes) (b0 : MessageBuffer)
    (h0 : NewMessageBuffer 0 = some b0) :
    b0.Add m = none ∧ ∀ s : Int, s < 0 → NewMessageBuffer s = none := by
  have hb : b0 = ⟨[], 0⟩ := by
    simp only [NewMessageBuffer, if_neg (by omega : ¬((0 : Int) < 0))] at h0
    exact (Option.some.inj h0).symm
  subst hb
  refine ⟨?_, ?_⟩
  · simp [MessageBuffer.Add]
  · intro s hs
    simp [NewMessageBuffer, hs]

/-- Witness for C10 (amended): the concrete failing inputs — size 0 and
the first Add, and size minus one at creation. -/
theorem nonpositive_capacity_unusable_witness :
    (MessageBuffer.mk [] 0).Add [] = none ∧
    NewMessageBuffer (-1) = none := by
  have h := nonpositive_capacity_unusable [] ⟨[], 0⟩ (by decide)
  exact ⟨h.1, h.2 (-1) (by decide)⟩

end DebugMcp
